import Mathlib

/-!
Verification of the chia-binary-manager core (BinaryManager in `src/unnamed/part_000`
and the Chia process supervisor in `src/lib/chia.js`) against its specification.

The JavaScript source is shallowly embedded: the filesystem is an explicit record of
existing files and directories, asynchronous operations become pure state-passing
functions, JS exceptions become `Except` values, and the event emitter becomes an
explicit list of emitted events.
-/

namespace ChiaBinaryManager

/-- Result of `os.platform()`: the two supported platforms plus a catch-all for every
other value (darwin, freebsd, ...), which the source treats uniformly. -/
inductive Platform
  | win32
  | linux
  | other
  deriving DecidableEq, Repr

/-- JS runtime errors and the error strings thrown by the source, collapsed to kinds.
`typeError` covers property access on null/undefined and `path.join` on a non-string. -/
inductive JsErr
  | typeError
  | unsupportedPlatform
  | network
  | missingBinary
  | invalidVersion
  | ioError
  deriving DecidableEq, Repr

instance {ε α : Type} [DecidableEq ε] [DecidableEq α] : DecidableEq (Except ε α) := by
  intro a b
  cases a <;> cases b
  case error.error e1 e2 =>
    exact if h : e1 = e2 then .isTrue (by rw [h]) else .isFalse (by simp [h])
  case ok.ok v1 v2 =>
    exact if h : v1 = v2 then .isTrue (by rw [h]) else .isFalse (by simp [h])
  case error.ok e v => exact .isFalse (by simp)
  case ok.error v e => exact .isFalse (by simp)

/-- `path.join` on two segments. -/
def pjoin (a b : String) : String := a ++ "/" ++ b

/-- The filesystem as seen by the source: which file paths and directory paths exist. -/
structure FS where
  files : List String
  dirs : List String
  deriving DecidableEq, Repr

/-- `existsSync` from `fs`. -/
def existsSync (fs : FS) (p : String) : Bool := fs.files.contains p

def addFile (fs : FS) (p : String) : FS := { fs with files := p :: fs.files }

/-- `fs.unlink`. -/
def removeFile (fs : FS) (p : String) : FS := { fs with files := fs.files.erase p }

/-- `mkdirp.sync`: creates the directory if absent, no-op otherwise. -/
def mkdirp (fs : FS) (d : String) : FS :=
  if fs.dirs.contains d then fs else { fs with dirs := d :: fs.dirs }

/-- `os.tmpdir()`. -/
def tmpDir : String := "/tmp"

/-- The `_binaryName` getter (part_000 lines 139-141):
`platform() === 'win32' ? 'chia.exe' : 'chia'`. -/
def binaryName : Platform → String
  | .win32 => "chia.exe"
  | _ => "chia"

/-- `_getDownloadUrl` (part_000 lines 88-94); throws on unsupported platforms. -/
def getDownloadUrl (p : Platform) (version : String) : Except JsErr String :=
  match p with
  | .win32 => .ok ("https://github.com/felixbrucker/chia-binary-manager/releases/download/binaries/chia-"
      ++ version ++ "-win.zip")
  | .linux => .ok ("https://github.com/felixbrucker/chia-binary-manager/releases/download/binaries/chia-"
      ++ version ++ "-linux.zip")
  | .other => .error .unsupportedPlatform

/-- The configuration a BinaryManager carries into acquisition: its binary root
directory and the current platform. -/
structure BMCfg where
  binaryDirectory : String
  platform : Platform
  deriving DecidableEq, Repr

/-- The deterministic binary path `join(join(binaryDirectory, version), binaryName)`
computed by `_ensureVersionExists` (part_000 lines 56-57). -/
def binaryPathFor (cfg : BMCfg) (version : String) : String :=
  pjoin (pjoin cfg.binaryDirectory version) (binaryName cfg.platform)

/-- `_downloadBinary` (part_000 lines 69-86): creates the scratch directory, resolves
the download URL (which throws on an unsupported platform), streams the archive to a
temp zip file, extracts its entries into the versioned directory, and unlinks the zip.
`archive` lists the file names inside the remote zip; `netOk` is whether the HTTP
download succeeds. The filesystem is returned even on failure, since JS exceptions do
not roll back completed filesystem effects. -/
def downloadBinary (cfg : BMCfg) (version : String) (archive : List String)
    (netOk : Bool) (fs : FS) : FS × Except JsErr Unit :=
  let tempDir := pjoin tmpDir "chia-binary-manager"
  let fs1 := mkdirp fs tempDir
  let zipFilePath := pjoin tempDir ("chia-" ++ version ++ ".zip")
  match getDownloadUrl cfg.platform version with
  | .error e => (fs1, .error e)
  | .ok _url =>
    if netOk then
      let fs2 := addFile fs1 zipFilePath
      let fs3 := archive.foldl
        (fun acc entry => addFile acc (pjoin (pjoin cfg.binaryDirectory version) entry)) fs2
      (removeFile fs3 zipFilePath, .ok ())
    else (fs1, .error .network)

/-- `_ensureVersionExists` (part_000 lines 55-67): early return when the binary file
already exists; otherwise create the versioned directory, download and extract, and
fail when the expected binary still does not exist. The `Nat` counts how many
download-and-extraction steps this call performed. -/
def ensureVersionExists (cfg : BMCfg) (version : String) (archive : List String)
    (netOk : Bool) (fs : FS) : FS × Except JsErr Nat :=
  if existsSync fs (binaryPathFor cfg version) then (fs, .ok 0)
  else
    match downloadBinary cfg version archive netOk
        (mkdirp fs (pjoin cfg.binaryDirectory version)) with
    | (fs2, .error e) => (fs2, .error e)
    | (fs2, .ok _) =>
      if existsSync fs2 (binaryPathFor cfg version) then (fs2, .ok 1)
      else (fs2, .error .missingBinary)

/-- C1: a successful `_ensureVersionExists` call leaves the binary file at the
deterministic path `<binaryDirectory>/<version>/<binaryName>`; it performed exactly one
download/extraction when the binary was initially absent and none when present; and any
second call on the resulting filesystem observes the file and returns immediately,
downloading nothing and leaving the filesystem unchanged. -/
theorem ensure_idempotent (cfg : BMCfg) (version : String) (archive : List String)
    (netOk : Bool) (fs fs' : FS) (n : Nat)
    (h : ensureVersionExists cfg version archive netOk fs = (fs', Except.ok n)) :
    existsSync fs' (binaryPathFor cfg version) = true ∧
    (existsSync fs (binaryPathFor cfg version) = false → n = 1) ∧
    (existsSync fs (binaryPathFor cfg version) = true → fs' = fs ∧ n = 0) ∧
    (∀ archive2 netOk2,
      ensureVersionExists cfg version archive2 netOk2 fs' = (fs', Except.ok 0)) := by
  by_cases hex : existsSync fs (binaryPathFor cfg version) = true
  · rw [ensureVersionExists, if_pos hex] at h
    simp only [Prod.mk.injEq, Except.ok.injEq] at h
    obtain ⟨h1, h2⟩ := h
    subst h1
    subst h2
    refine ⟨hex, ?_, fun _ => ⟨rfl, rfl⟩, ?_⟩
    · intro hfalse
      rw [hex] at hfalse
      exact absurd hfalse (by simp)
    · intro archive2 netOk2
      rw [ensureVersionExists, if_pos hex]
  · rw [ensureVersionExists, if_neg hex] at h
    rcases hdl : downloadBinary cfg version archive netOk
        (mkdirp fs (pjoin cfg.binaryDirectory version)) with ⟨fs2, r⟩
    rw [hdl] at h
    cases r with
    | error e => simp at h
    | ok u =>
      dsimp only at h
      by_cases hex2 : existsSync fs2 (binaryPathFor cfg version) = true
      · rw [if_pos hex2] at h
        simp only [Prod.mk.injEq, Except.ok.injEq] at h
        obtain ⟨h1, h2⟩ := h
        subst h1
        subst h2
        refine ⟨hex2, fun _ => rfl, fun htrue => absurd htrue hex, ?_⟩
        intro archive2 netOk2
        rw [ensureVersionExists, if_pos hex2]
      · rw [if_neg hex2] at h
        simp at h

/-- C1 witness: on an empty filesystem on linux, with an archive containing the `chia`
binary, the first call downloads once and a second call (even with a different archive
and a failing network) returns the filesystem unchanged with zero downloads. -/
theorem ensure_idempotent_witness :
    ensureVersionExists ⟨"/bins", Platform.linux⟩ "1.0.0" [] false
      ⟨["/bins/1.0.0/chia"], ["/tmp/chia-binary-manager", "/bins/1.0.0"]⟩ =
      (⟨["/bins/1.0.0/chia"], ["/tmp/chia-binary-manager", "/bins/1.0.0"]⟩,
        Except.ok 0) := by
  have h := ensure_idempotent ⟨"/bins", Platform.linux⟩ "1.0.0" ["chia"] true
    ⟨[], []⟩ ⟨["/bins/1.0.0/chia"], ["/tmp/chia-binary-manager", "/bins/1.0.0"]⟩ 1
    (by decide)
  exact h.2.2.2 [] false

/-! ## Process supervisor: `_closed` (chia.js lines 121-142) -/

/-- A signal fired on the spawned process handle: a `close` event carrying the exit
code (`none` models a null code, e.g. death by signal), or an `error` event carrying
the spawn error message. -/
inductive PEvent
  | close (code : Option Int)
  | err (msg : String)
  deriving DecidableEq, Repr

/-- How the promise built by `_closed` settles. -/
inductive Outcome
  | resolved
  | rejectedCode (code : Option Int)
  | rejectedErr (msg : String)
  deriving DecidableEq, Repr

/-- The settlement a single firing produces: `code === 0` resolves, any other close
code rejects with that code, an error event rejects with the error. -/
def outcomeOf : PEvent → Outcome
  | .close code => if code = some 0 then .resolved else .rejectedCode code
  | .err m => .rejectedErr m

/-- One handler invocation in `_closed`: the `resolved` flag guard returns early once
the promise has settled, otherwise the firing settles it. -/
def closedStep (st : Option Outcome) (e : PEvent) : Option Outcome :=
  match st with
  | some o => some o
  | none => some (outcomeOf e)

/-- The promise built by `_closed`, run over the sequence of close/error firings:
`none` means still pending. -/
def settle (evs : List PEvent) : Option Outcome := evs.foldl closedStep none

theorem settle_foldl_some (evs : List PEvent) (o : Outcome) :
    evs.foldl closedStep (some o) = some o := by
  induction evs with
  | nil => rfl
  | cons e rest ih => simpa [closedStep] using ih

/-- C2: once the first close/error firing settles the promise, every later firing is
ignored; the promise resolves exactly when the first firing is a close with code 0,
rejects with code `c` when it is a close with any other code, and rejects with the
spawn error when it is an error event — one outcome per spawn, mutually exclusive
because `settle` is a function into a sum of the three outcomes. -/
theorem closed_spec (e : PEvent) (rest : List PEvent) :
    settle (e :: rest) = settle [e] ∧
    (settle (e :: rest) = some Outcome.resolved ↔ e = PEvent.close (some 0)) ∧
    (∀ c, e = PEvent.close c → c ≠ some 0 →
      settle (e :: rest) = some (Outcome.rejectedCode c)) ∧
    (∀ m, e = PEvent.err m → settle (e :: rest) = some (Outcome.rejectedErr m)) := by
  have hfirst : settle (e :: rest) = some (outcomeOf e) := by
    simp [settle, closedStep, settle_foldl_some]
  refine ⟨by rw [hfirst]; simp [settle, closedStep], ?_, ?_, ?_⟩
  · rw [hfirst]
    constructor
    · intro h
      cases e with
      | close c =>
        by_cases hc : c = some 0
        · rw [hc]
        · simp [outcomeOf, hc] at h
      | err m => simp [outcomeOf] at h
    · intro h
      subst h
      simp [outcomeOf]
  · intro c hc hne
    subst hc
    rw [hfirst]
    simp [outcomeOf, hne]
  · intro m hm
    subst hm
    rw [hfirst]
    rfl

/-- C2 witness: a close with code 2 followed by a stray second close with code 0
rejects with code 2 — the second firing is ignored. -/
theorem closed_spec_witness :
    settle [PEvent.close (some 2), PEvent.close (some 0)] =
      some (Outcome.rejectedCode (some 2)) :=
  (closed_spec (PEvent.close (some 2)) [PEvent.close (some 0)]).2.2.1
    (some 2) rfl (by decide)

/-! ## Process supervisor: `kill` (chia.js lines 100-107) -/

/-- The observable actions `kill` performs, in order: sending the termination signal
to the tracked process, clearing `this.runningProcess`, and awaiting the fixed
`setTimeout` grace delay. -/
inductive KillAction
  | signal (pid : Nat)
  | clearRef
  | sleep (ms : Nat)
  deriving DecidableEq, Repr

/-- `kill`: early return when no process is tracked; otherwise signal the process,
null out the tracked reference, then wait 1000 ms. Returns the new tracked reference
and the trace of actions performed. -/
def kill (runningProcess : Option Nat) : Option Nat × List KillAction :=
  match runningProcess with
  | none => (none, [])
  | some pid => (none, [.signal pid, .clearRef, .sleep 1000])

/-- C9: `kill` with no tracked process performs no action (in particular no grace
delay); with a tracked process it signals it, clears the tracked reference strictly
before the 1-second sleep in its action trace, and leaves no tracked process, so a
subsequent `kill` is a complete no-op even though nothing confirmed the OS process
died. -/
theorem kill_spec (pid : Nat) :
    kill none = (none, []) ∧
    (kill (some pid)).1 = none ∧
    (kill (some pid)).2 = [KillAction.signal pid, KillAction.clearRef,
      KillAction.sleep 1000] ∧
    (∃ pre post, (kill (some pid)).2 = pre ++ KillAction.clearRef :: post ∧
      (∀ ms, KillAction.sleep ms ∉ pre) ∧ KillAction.sleep 1000 ∈ post) ∧
    kill ((kill (some pid)).1) = (none, []) := by
  refine ⟨rfl, rfl, rfl, ⟨[KillAction.signal pid], [KillAction.sleep 1000], rfl, ?_, ?_⟩, rfl⟩
  · intro ms
    simp [kill]
  · simp

/-! ## Process supervisor: `createPlot` argument construction (chia.js lines 55-94) -/

/-- JS truthiness of a string-or-null value: `null`, `undefined` and the empty string
are falsy. -/
def truthyStr : Option String → Bool
  | none => false
  | some s => !(s == "")

/-- `Math.round` on a JS number: floor of x + 1/2 (JS rounds half toward positive
infinity). Computed directly on the reduced fraction so that it evaluates inside the
kernel: for x = n/d with d > 0, floor(x + 1/2) is (2n + d) divided by 2d, rounding
down. -/
def jsRound (x : Rat) : Int := (2 * x.num + x.den) / (2 * (x.den : Int))

/-- `jsRound` is floor of x + 1/2. -/
theorem jsRound_eq_floor (x : Rat) : jsRound x = ⌊x + 1/2⌋ := by
  have hden : ((x.den : Rat)) ≠ 0 := by
    exact_mod_cast x.den_nz
  have hnum : (x.num : Rat) = x * (x.den : Rat) := by
    have h0 := Rat.num_div_den x
    exact (div_eq_iff hden).mp h0
  have h : x + 1/2 = ((2 * x.num + (x.den : Int) : Int) : Rat) / ((2 * x.den : Nat) : Rat) := by
    push_cast
    rw [hnum]
    field_simp
    linear_combination (-4 : Rat) * hnum
  rw [h, Rat.floor_intCast_div_natCast, jsRound]
  congr 1

/-- The `_defaultArgs` getter (chia.js lines 155-160). -/
def defaultArgs (rootDirectory : String) : List String := ["--root-path", rootDirectory]

/-- The parameter bag accepted by `createPlot`, with the source's default values
(chia.js lines 55-65). Optional keys default to `null` (`none`). -/
structure PlotParams where
  tempDirectory : String
  destinationDirectory : String
  kSize : Nat := 32
  threads : Nat := 2
  buckets : Nat := 128
  memoryInMib : Rat := 4000
  farmerPublicKey : Option String := none
  poolPublicKey : Option String := none
  useBitfield : Bool := false
  deriving DecidableEq, Repr

/-- The argument list `createPlot` builds (chia.js lines 66-92): the root-path
default arguments, the fixed plot flags with numbers stringified, then `-f`/`-p`
appended only when the corresponding key is truthy, then `-e` appended unless
`useBitfield` is set. -/
def createPlotArgs (rootDirectory : String) (p : PlotParams) : List String :=
  let args := defaultArgs rootDirectory ++
    ["plots", "create",
     "-k", toString p.kSize,
     "-r", toString p.threads,
     "-u", toString p.buckets,
     "-b", toString (jsRound p.memoryInMib),
     "-t", p.tempDirectory,
     "-2", p.destinationDirectory,
     "-d", p.destinationDirectory]
  let args := if truthyStr p.farmerPublicKey
    then args ++ ["-f", p.farmerPublicKey.getD ""] else args
  let args := if truthyStr p.poolPublicKey
    then args ++ ["-p", p.poolPublicKey.getD ""] else args
  if p.useBitfield then args else args ++ ["-e"]

/-- C8 counterexample: supplying `farmerPublicKey` as the empty string does not append
the `-f` flag — the source gates the flag on JS truthiness, so a supplied-but-empty
key is dropped, contrary to the claim that supplying the key appends the flag. -/
theorem createPlot_empty_key_cx :
    "-f" ∉ createPlotArgs "/root"
      { tempDirectory := "/t", destinationDirectory := "/d",
        farmerPublicKey := some "" } := by
  decide

/-- C8 (amended): with only the required directories `createPlot` builds exactly the
documented default argument list ending in the legacy `-e` flag; `useBitfield := true`
omits `-e`; a non-empty farmer or pool public key appends its flag with the given
value, independently of the other; and a falsy key (absent or empty string) is omitted
entirely. -/
theorem createPlot_args (root t d : String) :
    createPlotArgs root { tempDirectory := t, destinationDirectory := d } =
      ["--root-path", root, "plots", "create", "-k", "32", "-r", "2", "-u", "128",
       "-b", "4000", "-t", t, "-2", d, "-d", d, "-e"] ∧
    createPlotArgs root
        { tempDirectory := t, destinationDirectory := d, useBitfield := true } =
      ["--root-path", root, "plots", "create", "-k", "32", "-r", "2", "-u", "128",
       "-b", "4000", "-t", t, "-2", d, "-d", d] ∧
    (∀ fpk, fpk ≠ "" → createPlotArgs root
        { tempDirectory := t, destinationDirectory := d,
          farmerPublicKey := some fpk } =
      ["--root-path", root, "plots", "create", "-k", "32", "-r", "2", "-u", "128",
       "-b", "4000", "-t", t, "-2", d, "-d", d, "-f", fpk, "-e"]) ∧
    (∀ ppk, ppk ≠ "" → createPlotArgs root
        { tempDirectory := t, destinationDirectory := d,
          poolPublicKey := some ppk } =
      ["--root-path", root, "plots", "create", "-k", "32", "-r", "2", "-u", "128",
       "-b", "4000", "-t", t, "-2", d, "-d", d, "-p", ppk, "-e"]) ∧
    (∀ fpk ppk, fpk ≠ "" → ppk ≠ "" → createPlotArgs root
        { tempDirectory := t, destinationDirectory := d,
          farmerPublicKey := some fpk, poolPublicKey := some ppk } =
      ["--root-path", root, "plots", "create", "-k", "32", "-r", "2", "-u", "128",
       "-b", "4000", "-t", t, "-2", d, "-d", d, "-f", fpk, "-p", ppk, "-e"]) ∧
    createPlotArgs root
        { tempDirectory := t, destinationDirectory := d,
          farmerPublicKey := some "", poolPublicKey := some "" } =
      ["--root-path", root, "plots", "create", "-k", "32", "-r", "2", "-u", "128",
       "-b", "4000", "-t", t, "-2", d, "-d", d, "-e"] := by
  have h32 : toString (32 : Nat) = "32" := by decide
  have h2 : toString (2 : Nat) = "2" := by decide
  have h128 : toString (128 : Nat) = "128" := by decide
  have hm : toString (jsRound 4000) = "4000" := by decide
  refine ⟨?_, ?_, ?_, ?_, ?_, ?_⟩
  · simp [createPlotArgs, defaultArgs, truthyStr, h32, h2, h128, hm]
  · simp [createPlotArgs, defaultArgs, truthyStr, h32, h2, h128, hm]
  · intro fpk hfpk
    simp [createPlotArgs, defaultArgs, truthyStr, hfpk, h32, h2, h128, hm]
  · intro ppk hppk
    simp [createPlotArgs, defaultArgs, truthyStr, hppk, h32, h2, h128, hm]
  · intro fpk ppk hfpk hppk
    simp [createPlotArgs, defaultArgs, truthyStr, hfpk, hppk, h32, h2, h128, hm]
  · simp [createPlotArgs, defaultArgs, truthyStr, h32, h2, h128, hm]

/-- C8 witness: a concrete bag with a non-empty farmer key appends `-f` with that
value. -/
theorem createPlot_args_witness :
    createPlotArgs "/r"
      { tempDirectory := "/t", destinationDirectory := "/d",
        farmerPublicKey := some "fk" } =
    ["--root-path", "/r", "plots", "create", "-k", "32", "-r", "2", "-u", "128",
     "-b", "4000", "-t", "/t", "-2", "/d", "-d", "/d", "-f", "fk", "-e"] :=
  (createPlot_args "/r" "/t" "/d").2.2.1 "fk" (by decide)

/-! ## Configuration store (chia.js lines 22-31 and 151-153) -/

/-- A Chia supervisor instance as built by the constructor (chia.js lines 8-16): the
only string data properties ever assigned are `binaryPath` and `rootDirectory`. -/
structure ChiaInstance where
  binaryPath : String
  rootDirectory : String
  deriving DecidableEq, Repr

/-- The property access `this.chiaRootDirectory` performed by the `_chiaConfigPath`
getter (chia.js line 152). No code path assigns a `chiaRootDirectory` property on a
Chia instance — the constructor stores the root under `rootDirectory` — so the access
yields undefined (`none`) for every instance. -/
def chiaRootDirectoryProp (_ : ChiaInstance) : Option String := none

/-- `path.join` on three segments as node executes it: every segment is validated to
be a string, and an undefined first segment throws a TypeError. -/
def pathJoin3 (a : Option String) (b c : String) : Except JsErr String :=
  match a with
  | some s => .ok (pjoin (pjoin s b) c)
  | none => .error .typeError

/-- The `_chiaConfigPath` getter (chia.js lines 151-153):
`join(this.chiaRootDirectory, 'config', 'config.yaml')`. -/
def chiaConfigPath (ch : ChiaInstance) : Except JsErr String :=
  pathJoin3 (chiaRootDirectoryProp ch) "config" "config.yaml"

/-- `readConfig` (chia.js lines 22-26): resolve the config path, read the file there,
hand the text to the YAML parser. File contents are an abstract input, reached only
if the path resolves. -/
def readConfig (ch : ChiaInstance) (fileContents : String → Option String) :
    Except JsErr String :=
  match chiaConfigPath ch with
  | .error e => .error e
  | .ok p =>
    match fileContents p with
    | some s => .ok s
    | none => .error .ioError

/-- `writeConfig` (chia.js lines 28-31): resolve the config path and overwrite the
file there with the serialized document, returning the new file association list. -/
def writeConfig (ch : ChiaInstance) (configYaml : String)
    (files : List (String × String)) : Except JsErr (List (String × String)) :=
  match chiaConfigPath ch with
  | .error e => .error e
  | .ok p => .ok ((p, configYaml) :: files)

/-- C5: every `readConfig` and `writeConfig` call fails with a TypeError, for every
instance and every document, because `_chiaConfigPath` reads `this.chiaRootDirectory`
— a property never assigned on a Chia instance, whose constructor stores the root
under `rootDirectory` — making `path.join` throw. The specified write-then-read round
trip at the path under the constructor root directory is unreachable. -/
theorem readWriteConfig_always_fails (ch : ChiaInstance)
    (fileContents : String → Option String) (configYaml : String)
    (files : List (String × String)) :
    readConfig ch fileContents = .error .typeError ∧
    writeConfig ch configYaml files = .error .typeError :=
  ⟨rfl, rfl⟩

/-! ## Release resolver: `_binaryZipRegex` and `_getLatestRelease`
(part_000 lines 113-149) -/

/-- Strips an expected literal off the front of a character list, returning the
remainder on success. -/
def dropLit : List Char → List Char → Option (List Char)
  | [], cs => some cs
  | _ :: _, [] => none
  | l :: ls, c :: cs => if c = l then dropLit ls cs else none

/-- Longest leading run of ASCII digits plus the remainder: the deterministic reading
of a greedy `[0-9]+`, exact here because every character following the quantifier in
the pattern is a non-digit, so backtracking can never give digits back. -/
def spanDigits : List Char → List Char × List Char
  | [] => ([], [])
  | c :: cs =>
    if c.isDigit then
      let (ds, rest) := spanDigits cs
      (c :: ds, rest)
    else ([], c :: cs)

/-- One attempt to match `chia-([0-9]+\.[0-9]+\.[0-9]+)-<tag>.zip` at the head of the
character list, returning the capture group. The dot before `zip` is unescaped in the
source pattern and therefore matches any single character. -/
def matchVersionAt (tag : List Char) (cs : List Char) : Option (List Char) :=
  match dropLit "chia-".toList cs with
  | none => none
  | some cs1 =>
    match spanDigits cs1 with
    | ([], _) => none
    | (h1 :: t1, cs2) =>
      match dropLit ['.'] cs2 with
      | none => none
      | some cs3 =>
        match spanDigits cs3 with
        | ([], _) => none
        | (h2 :: t2, cs4) =>
          match dropLit ['.'] cs4 with
          | none => none
          | some cs5 =>
            match spanDigits cs5 with
            | ([], _) => none
            | (h3 :: t3, cs6) =>
              match dropLit ('-' :: tag) cs6 with
              | none => none
              | some cs7 =>
                match cs7 with
                | [] => none
                | _ :: cs8 =>
                  match dropLit "zip".toList cs8 with
                  | none => none
                  | some _ =>
                    some ((h1 :: t1) ++ '.' :: (h2 :: t2) ++ '.' :: (h3 :: t3))

/-- Leftmost match: JS `String.match` tries each start position from the left and
returns the first success. -/
def firstMatchFrom (tag : List Char) : List Char → Option (List Char)
  | [] => none
  | c :: cs =>
    match matchVersionAt tag (c :: cs) with
    | some v => some v
    | none => firstMatchFrom tag cs

/-- The version string an asset name yields under the platform's filename pattern
(`_binaryZipRegex`, part_000 lines 143-149): capture group 1 of the first match. The
unsupported-platform throw of the getter is modelled at its use site in `tagAsset`;
`other` here only records that no pattern exists for it. -/
def extractVersion (p : Platform) (name : String) : Option String :=
  match p with
  | .win32 => (firstMatchFrom "win".toList name.toList).map List.asString
  | .linux => (firstMatchFrom "linux".toList name.toList).map List.asString
  | .other => none

/-- Split a character list at every '.'. -/
def splitDots : List Char → List (List Char)
  | [] => [[]]
  | c :: cs =>
    if c = '.' then [] :: splitDots cs
    else
      match splitDots cs with
      | [] => [[c]]
      | g :: gs => (c :: g) :: gs

/-- A numeric component the `semver` library accepts: a nonempty digit run with no
leading zero. -/
def validNum : List Char → Bool
  | [] => false
  | [c] => c.isDigit
  | c :: rest => c.isDigit && c != '0' && rest.all (·.isDigit)

def digitsToNat (cs : List Char) : Nat :=
  cs.foldl (fun acc c => 10 * acc + (c.toNat - '0'.toNat)) 0

/-- Parse of a `major.minor.patch` version string by the `semver` library, restricted
to the plain numeric-triple grammar that the asset-name capture can produce; a
malformed component (for instance a leading zero) makes the library throw, modelled
as `none` here and turned into a thrown error by the comparison functions below. -/
def semverParse (s : String) : Option (Nat × Nat × Nat) :=
  match splitDots s.toList with
  | [a, b, c] =>
    if validNum a && validNum b && validNum c then
      some (digitsToNat a, digitsToNat b, digitsToNat c)
    else none
  | _ => none

/-- Lexicographic order on parsed version triples, the order `semver` compares by
when no prerelease tags are present. -/
def triLe (a b : Nat × Nat × Nat) : Bool :=
  decide (a.1 < b.1 ∨ (a.1 = b.1 ∧ (a.2.1 < b.2.1 ∨ (a.2.1 = b.2.1 ∧ a.2.2 ≤ b.2.2))))

theorem triLe_refl (a : Nat × Nat × Nat) : triLe a a = true := by
  simp [triLe]

theorem triLe_trans {a b c : Nat × Nat × Nat} (h1 : triLe a b = true)
    (h2 : triLe b c = true) : triLe a c = true := by
  obtain ⟨a1, a2, a3⟩ := a
  obtain ⟨b1, b2, b3⟩ := b
  obtain ⟨c1, c2, c3⟩ := c
  simp only [triLe, decide_eq_true_eq] at h1 h2 ⊢
  omega

theorem triLe_total {a b : Nat × Nat × Nat} (h : triLe a b = false) :
    triLe b a = true := by
  obtain ⟨a1, a2, a3⟩ := a
  obtain ⟨b1, b2, b3⟩ := b
  simp only [triLe, decide_eq_false_iff_not, decide_eq_true_eq] at h ⊢
  omega

/-- `semver.gte(a, b)`: true when a ≥ b, a thrown error when either side fails to
parse. -/
def semverGteE (a b : String) : Except JsErr Bool :=
  match semverParse a, semverParse b with
  | some ta, some tb => .ok (triLe tb ta)
  | _, _ => .error .invalidVersion

/-- `semver.lte(a, b)`: true when a ≤ b, a thrown error when either side fails to
parse. -/
def semverLte (a b : String) : Except JsErr Bool :=
  match semverParse a, semverParse b with
  | some ta, some tb => .ok (triLe ta tb)
  | _, _ => .error .invalidVersion

/-- `semver.gte` as the reduce callback calls it, on possibly-absent version fields
(an absent side makes the library throw). -/
def semverGteO : Option String → Option String → Except JsErr Bool
  | some a, some b => semverGteE a b
  | _, _ => .error .invalidVersion

/-- A release-feed asset as delivered by the remote endpoint: only its `name` is
consulted. -/
structure Asset where
  name : String
  deriving DecidableEq, Repr

/-- An asset after the `.map` step of `_getLatestRelease` (part_000 lines 116-123):
the same object, with a `version` property set when the name matched the pattern. -/
structure TaggedAsset where
  name : String
  version : Option String
  deriving DecidableEq, Repr

/-- The per-asset body of the `.map` callback: accessing `this._binaryZipRegex`
throws on an unsupported platform; otherwise the asset is tagged with the extracted
version, if any. -/
def tagAsset (p : Platform) (a : Asset) : Except JsErr TaggedAsset :=
  match p with
  | .other => .error .unsupportedPlatform
  | _ => .ok { name := a.name, version := extractVersion p a.name }

/-- `assets.map(...)` with a throwing callback: the first throw aborts the whole
call. -/
def tagAssets (p : Platform) : List Asset → Except JsErr (List TaggedAsset)
  | [] => .ok []
  | a :: rest =>
    match tagAsset p a with
    | .error e => .error e
    | .ok t =>
      match tagAssets p rest with
      | .error e => .error e
      | .ok ts => .ok (t :: ts)

/-- The `filter(asset => !!asset.version)` predicate: the version property is truthy
exactly when a capture was stored (captures are never empty strings). -/
def hasVersion (t : TaggedAsset) : Bool := t.version.isSome

/-- The `reduce` of `_getLatestRelease` (part_000 lines 126-132): keep the earlier
asset on `gte`, otherwise take the current one; a comparison throw aborts the call.
The accumulator starts as `null`. -/
def pickGo (acc : Option TaggedAsset) : List TaggedAsset → Except JsErr (Option TaggedAsset)
  | [] => .ok acc
  | c :: rest =>
    match acc with
    | none => pickGo (some c) rest
    | some l =>
      match semverGteO l.version c.version with
      | .error e => .error e
      | .ok ge => pickGo (some (if ge then l else c)) rest

/-- `_getLatestRelease` (part_000 lines 113-133), given the decoded feed assets. The
single `axios.get` of the release URL executes before anything else; the second
component counts the HTTP requests performed (always that one request, granted the
feed response that provided `assets`). -/
def getLatestRelease (p : Platform) (assets : List Asset) :
    Except JsErr (Option TaggedAsset) × Nat :=
  (match tagAssets p assets with
   | .error e => .error e
   | .ok tagged => pickGo none (tagged.filter hasVersion), 1)

/-- The parsed version of a tagged asset, when present and well formed. -/
def parseOf (t : TaggedAsset) : Option (Nat × Nat × Nat) :=
  match t.version with
  | some v => semverParse v
  | none => none

theorem tagAsset_ok {p : Platform} {a : Asset} {t : TaggedAsset}
    (h : tagAsset p a = .ok t) :
    t = { name := a.name, version := extractVersion p a.name } := by
  cases p with
  | other => simp [tagAsset] at h
  | win32 =>
    simp only [tagAsset, Except.ok.injEq] at h
    exact h.symm
  | linux =>
    simp only [tagAsset, Except.ok.injEq] at h
    exact h.symm

theorem tagAssets_ok {p : Platform} {assets : List Asset} {ts : List TaggedAsset}
    (h : tagAssets p assets = .ok ts) :
    ts = assets.map (fun a => { name := a.name, version := extractVersion p a.name }) := by
  induction assets generalizing ts with
  | nil =>
    simp only [tagAssets, Except.ok.injEq] at h
    simp [← h]
  | cons a rest ih =>
    rw [tagAssets] at h
    rcases h1 : tagAsset p a with e | t
    · rw [h1] at h
      simp at h
    · rw [h1] at h
      rcases h2 : tagAssets p rest with e | ts2
      · rw [h2] at h
        simp at h
      · rw [h2] at h
        simp only [Except.ok.injEq] at h
        rw [← h, List.map_cons, ← ih h2, tagAsset_ok h1]

theorem semverGteO_ok {vx vy : Option String} {ge : Bool}
    (h : semverGteO vx vy = .ok ge) :
    ∃ x y tx ty, vx = some x ∧ vy = some y ∧ semverParse x = some tx ∧
      semverParse y = some ty ∧ ge = triLe ty tx := by
  match vx, vy with
  | none, _ => simp [semverGteO] at h
  | some x, none => simp [semverGteO] at h
  | some x, some y =>
    rw [semverGteO, semverGteE] at h
    rcases hx : semverParse x with _ | tx
    · rw [hx] at h
      simp at h
    · rcases hy : semverParse y with _ | ty
      · rw [hx, hy] at h
        simp at h
      · rw [hx, hy] at h
        simp only [Except.ok.injEq] at h
        exact ⟨x, y, tx, ty, rfl, rfl, hx, hy, h.symm⟩

/-- Invariant of the `reduce`: an `ok some` result is drawn from the accumulator or
the list, and its version parses at least as high as every parseable version among
them. -/
theorem pickGo_max (xs : List TaggedAsset) :
    ∀ (acc : Option TaggedAsset) (r : TaggedAsset),
    pickGo acc xs = .ok (some r) →
    ((acc = some r ∨ r ∈ xs) ∧
     ∀ a ta, (acc = some a ∨ a ∈ xs) → parseOf a = some ta →
       ∃ tr, parseOf r = some tr ∧ triLe ta tr = true) := by
  induction xs with
  | nil =>
    intro acc r h
    simp only [pickGo, Except.ok.injEq] at h
    refine ⟨Or.inl h, ?_⟩
    intro a ta ha hp
    rcases ha with ha | ha
    · rw [h] at ha
      injection ha with ha
      subst ha
      exact ⟨ta, hp, triLe_refl ta⟩
    · simp at ha
  | cons c rest ih =>
    intro acc r h
    cases acc with
    | none =>
      rw [pickGo] at h
      obtain ⟨hmem, hmax⟩ := ih (some c) r h
      refine ⟨?_, ?_⟩
      · rcases hmem with hc | hr
        · injection hc with hc
          subst hc
          exact Or.inr (List.mem_cons_self c rest)
        · exact Or.inr (List.mem_cons_of_mem c hr)
      · intro a ta ha hp
        rcases ha with ha | ha
        · cases ha
        · rcases List.mem_cons.mp ha with rfl | hmem2
          · exact hmax a ta (Or.inl rfl) hp
          · exact hmax a ta (Or.inr hmem2) hp
    | some l =>
      rw [pickGo] at h
      rcases hg : semverGteO l.version c.version with e | ge
      · rw [hg] at h
        simp at h
      · rw [hg] at h
        dsimp only at h
        obtain ⟨x, y, tl, tc, hlx, hcy, hpx, hpy, hge⟩ := semverGteO_ok hg
        have hpl : parseOf l = some tl := by
          rw [parseOf, hlx]
          exact hpx
        have hpc : parseOf c = some tc := by
          rw [parseOf, hcy]
          exact hpy
        cases hgeb : ge with
        | true =>
          rw [hgeb] at hge
          have hct : triLe tc tl = true := hge.symm
          have h2 : pickGo (some l) rest = .ok (some r) := by
            rw [hgeb] at h
            simpa using h
          obtain ⟨hmem, hmax⟩ := ih (some l) r h2
          refine ⟨?_, ?_⟩
          · rcases hmem with hm | hr
            · exact Or.inl hm
            · exact Or.inr (List.mem_cons_of_mem c hr)
          · intro a ta ha hp
            rcases ha with ha | ha
            · exact hmax a ta (Or.inl ha) hp
            · rcases List.mem_cons.mp ha with hac | hmem2
              · have hpc2 : parseOf a = some tc := by
                  rw [hac]
                  exact hpc
                have hta : ta = tc := by
                  have h12 : (some ta : Option (Nat × Nat × Nat)) = some tc := by
                    rw [← hp]
                    exact hpc2
                  exact Option.some_inj.mp h12
                obtain ⟨tr, hptr, htr⟩ := hmax l tl (Or.inl rfl) hpl
                refine ⟨tr, hptr, ?_⟩
                rw [hta]
                exact triLe_trans hct htr
              · exact hmax a ta (Or.inr hmem2) hp
        | false =>
          rw [hgeb] at hge
          have hcl : triLe tc tl = false := hge.symm
          have hlc : triLe tl tc = true := triLe_total hcl
          have h2 : pickGo (some c) rest = .ok (some r) := by
            rw [hgeb] at h
            simpa using h
          obtain ⟨hmem, hmax⟩ := ih (some c) r h2
          refine ⟨?_, ?_⟩
          · rcases hmem with hm | hr
            · have hcr : c = r := Option.some_inj.mp hm
              rw [← hcr]
              exact Or.inr (List.mem_cons_self c rest)
            · exact Or.inr (List.mem_cons_of_mem c hr)
          · intro a ta ha hp
            rcases ha with ha | ha
            · have hal : l = a := Option.some_inj.mp ha
              have hpl2 : parseOf a = some tl := by
                rw [← hal]
                exact hpl
              have hta : ta = tl := by
                have h12 : (some ta : Option (Nat × Nat × Nat)) = some tl := by
                  rw [← hp]
                  exact hpl2
                exact Option.some_inj.mp h12
              obtain ⟨tr, hptr, htr⟩ := hmax c tc (Or.inl rfl) hpc
              refine ⟨tr, hptr, ?_⟩
              rw [hta]
              exact triLe_trans hlc htr
            · rcases List.mem_cons.mp ha with hac | hmem2
              · have hpc2 : parseOf a = some tc := by
                  rw [hac]
                  exact hpc
                have hta : ta = tc := by
                  have h12 : (some ta : Option (Nat × Nat × Nat)) = some tc := by
                    rw [← hp]
                    exact hpc2
                  exact Option.some_inj.mp h12
                obtain ⟨tr, hptr, htr⟩ := hmax c tc (Or.inl rfl) hpc
                refine ⟨tr, hptr, ?_⟩
                rw [hta]
                exact htr
              · exact hmax a ta (Or.inr hmem2) hp

/-- C3: when `_getLatestRelease` returns an asset, that asset's name matched the
current platform's filename pattern (non-matching assets are never candidates, no
matter what version text they embed), and its version parses at least as high as
every valid version extracted from any asset of the feed — so an asset with a
strictly smaller valid version is never returned while a larger one is present. -/
theorem fetchLatest_max (p : Platform) (assets : List Asset) (r : TaggedAsset)
    (h : (getLatestRelease p assets).1 = .ok (some r)) :
    (r.version = extractVersion p r.name ∧ r.version.isSome = true) ∧
    ∀ a, a ∈ assets → ∀ va ta, extractVersion p a.name = some va →
      semverParse va = some ta →
      ∃ vr tr, r.version = some vr ∧ semverParse vr = some tr ∧
        triLe ta tr = true := by
  rw [getLatestRelease] at h
  dsimp only at h
  rcases ht : tagAssets p assets with e | tagged
  · rw [ht] at h
    simp at h
  · rw [ht] at h
    dsimp only at h
    have htag := tagAssets_ok ht
    obtain ⟨hmem, hmax⟩ := pickGo_max _ none r h
    rcases hmem with hbad | hr
    · cases hbad
    have hrf := List.mem_filter.mp hr
    constructor
    · constructor
      · rw [htag] at hrf
        rcases List.mem_map.mp hrf.1 with ⟨a0, _, heq⟩
        rw [← heq]
      · exact hrf.2
    · intro a hmem2 va ta hext hparse
      have hin : ({ name := a.name, version := extractVersion p a.name } :
          TaggedAsset) ∈ tagged := by
        rw [htag]
        exact List.mem_map_of_mem _ hmem2
      have hv : hasVersion { name := a.name, version := extractVersion p a.name } = true := by
        simp [hasVersion, hext]
      have hinf : ({ name := a.name, version := extractVersion p a.name } :
          TaggedAsset) ∈ tagged.filter hasVersion :=
        List.mem_filter.mpr ⟨hin, hv⟩
      have hpa : parseOf { name := a.name, version := extractVersion p a.name } = some ta := by
        rw [parseOf]
        dsimp only
        rw [hext]
        exact hparse
      obtain ⟨tr, hptr, hle⟩ := hmax _ ta (Or.inr hinf) hpa
      rcases hrv : r.version with _ | vr
      · rw [parseOf, hrv] at hptr
        simp at hptr
      · refine ⟨vr, tr, rfl, ?_, hle⟩
        rw [parseOf, hrv] at hptr
        exact hptr

/-- C3 witness: with linux assets for 1.2.3 and 1.10.0 plus a mac-named 9.9.9, the
resolver returns the 1.10.0 asset and its parsed version dominates 1.2.3. -/
theorem fetchLatest_max_witness :
    ∃ vr tr,
      (TaggedAsset.mk "chia-1.10.0-linux.zip" (some "1.10.0")).version = some vr ∧
      semverParse vr = some tr ∧ triLe (1, 2, 3) tr = true := by
  have h := fetchLatest_max Platform.linux
    [⟨"chia-1.2.3-linux.zip"⟩, ⟨"chia-1.10.0-linux.zip"⟩, ⟨"chia-9.9.9-mac.zip"⟩]
    (TaggedAsset.mk "chia-1.10.0-linux.zip" (some "1.10.0")) (by decide)
  exact h.2 ⟨"chia-1.2.3-linux.zip"⟩ (by decide) "1.2.3" (1, 2, 3) (by decide) (by decide)

/-- C6 counterexample: a feed whose only asset matches no linux pattern makes
`_getLatestRelease` return ok-null — a value, not a `NoMatchingAssetError` failure
(the source has no such throw; the reduce over an empty candidate list returns its
null initial accumulator). -/
theorem noMatch_cx :
    (getLatestRelease Platform.linux [⟨"chia-1.0.0-win.zip"⟩]).1 =
      Except.ok none := by
  decide

/-- C6 (amended): on a supported platform, when no asset name matches the platform
pattern, `_getLatestRelease` returns null (no asset) instead of failing. -/
theorem noMatch_returns_none (p : Platform) (assets : List Asset)
    (hp : p ≠ Platform.other)
    (h : ∀ a ∈ assets, extractVersion p a.name = none) :
    (getLatestRelease p assets).1 = .ok none := by
  rw [getLatestRelease]
  dsimp only
  have htags : tagAssets p assets =
      .ok (assets.map (fun a => { name := a.name, version := extractVersion p a.name })) := by
    induction assets with
    | nil => rfl
    | cons a rest ih =>
      rw [tagAssets]
      have hta : tagAsset p a = .ok { name := a.name, version := extractVersion p a.name } := by
        cases p with
        | other => exact absurd rfl hp
        | win32 => rfl
        | linux => rfl
      rw [hta, ih fun b hb => h b (List.mem_cons_of_mem a hb)]
      rfl
  rw [htags]
  dsimp only
  have hfilter : (assets.map
      (fun a => ({ name := a.name, version := extractVersion p a.name } : TaggedAsset))).filter
        hasVersion = [] := by
    rw [List.filter_eq_nil_iff]
    intro t htmem
    rcases List.mem_map.mp htmem with ⟨a0, ha0, heq⟩
    rw [← heq]
    simp [hasVersion, h a0 ha0]
  rw [hfilter]
  rfl

/-- C6 amended-claim witness at a concrete non-matching feed. -/
theorem noMatch_returns_none_witness :
    (getLatestRelease Platform.linux [⟨"spare-parts.zip"⟩, ⟨"chia-2.0.0-win.zip"⟩]).1 =
      Except.ok none :=
  noMatch_returns_none Platform.linux [⟨"spare-parts.zip"⟩, ⟨"chia-2.0.0-win.zip"⟩]
    (by decide) (by decide)

/-- C7 counterexample: on an unsupported platform with a nonempty asset list the call
does fail with the unsupported-platform error, but only after performing the one feed
HTTP request — the axios GET on line 114 precedes the first `_binaryZipRegex` access
inside the map callback — contradicting the claim that no HTTP request is performed. -/
theorem unsupported_cx :
    (getLatestRelease Platform.other [⟨"chia-1.0.0-win.zip"⟩]).1 =
      Except.error JsErr.unsupportedPlatform ∧
    (getLatestRelease Platform.other [⟨"chia-1.0.0-win.zip"⟩]).2 = 1 := by
  constructor
  · decide
  · decide

/-- C7 (amended): on an unsupported platform the feed HTTP request is always
performed first; the call then fails with `UnsupportedPlatformError` provided the
response carries at least one asset, and returns ok-null without any error when the
asset list is empty (the map callback that touches the pattern getter never runs). -/
theorem unsupported_after_fetch (assets : List Asset) (h : assets ≠ []) :
    (getLatestRelease Platform.other assets).1 = .error .unsupportedPlatform ∧
    (getLatestRelease Platform.other assets).2 = 1 ∧
    (getLatestRelease Platform.other []).1 = .ok none := by
  refine ⟨?_, rfl, rfl⟩
  match assets with
  | [] => exact absurd rfl h
  | a :: rest => rfl

/-- C7 amended-claim witness at a concrete nonempty feed. -/
theorem unsupported_after_fetch_witness :
    (getLatestRelease Platform.other [⟨"x.zip"⟩]).1 =
      Except.error JsErr.unsupportedPlatform :=
  (unsupported_after_fetch [⟨"x.zip"⟩] (by decide)).1

/-! ## BinaryManager: `getConfiguredChia` (part_000 lines 28-53) and
`_updateLatestRelease` (part_000 lines 96-111) -/

/-- A release as produced by `_getLatestRelease` and cached in
`this.latestRelease`: only its version is consulted afterwards. -/
structure Release where
  version : String
  deriving DecidableEq, Repr

/-- The BinaryManager state relevant to the claims: its two configured directories,
the current platform, and the cached latest release — `none` models both the state
before `init()` has completed (the property is undefined) and the state after an
`init()` whose feed had no matching asset (the property is null); both read back as
a falsy non-object. -/
structure BMState where
  binaryDirectory : String
  chiaRootDirectory : String
  platform : Platform
  latestRelease : Option Release
  deriving DecidableEq, Repr

/-- `_getChiaBinaryPath` (part_000 lines 47-53): ensure the version exists, then
return the joined binary path. -/
def getChiaBinaryPath (cfg : BMCfg) (version : String) (archive : List String)
    (netOk : Bool) (fs : FS) : FS × Except JsErr String :=
  match ensureVersionExists cfg version archive netOk fs with
  | (fs2, .error e) => (fs2, .error e)
  | (fs2, .ok _) => (fs2, .ok (binaryPathFor cfg version))

/-- The body of `getConfiguredChia` once the version argument has been resolved:
acquire the binary and construct a Chia supervisor on the configured chia root. -/
def configuredChiaFor (st : BMState) (version : String) (archive : List String)
    (netOk : Bool) (fs : FS) : FS × Except JsErr ChiaInstance :=
  match getChiaBinaryPath ⟨st.binaryDirectory, st.platform⟩ version archive netOk fs with
  | (fs2, .error e) => (fs2, .error e)
  | (fs2, .ok p) => (fs2, .ok { binaryPath := p, rootDirectory := st.chiaRootDirectory })

/-- `getConfiguredChia` (part_000 lines 42-45): the default value of the `version`
parameter is `this.latestRelease.version`, evaluated only when no argument is passed;
reading `.version` off an undefined or null cached release throws a TypeError. -/
def getConfiguredChia (st : BMState) (versionArg : Option String)
    (archive : List String) (netOk : Bool) (fs : FS) :
    FS × Except JsErr ChiaInstance :=
  match versionArg with
  | some v => configuredChiaFor st v archive netOk fs
  | none =>
    match st.latestRelease with
    | none => (fs, .error .typeError)
    | some r => configuredChiaFor st r.version archive netOk fs

/-- C10: before a successful `init()` there is no cached latest release, so
`getConfiguredChia()` with no version argument fails with a TypeError while
evaluating the default `this.latestRelease.version`; passing an explicit version
bypasses the cached release entirely — the result does not depend on it. -/
theorem getConfiguredChia_needs_init (st : BMState) (archive : List String)
    (netOk : Bool) (fs : FS) (h : st.latestRelease = none) :
    getConfiguredChia st none archive netOk fs = (fs, .error .typeError) ∧
    ∀ x v, getConfiguredChia { st with latestRelease := x } (some v) archive netOk fs =
      getConfiguredChia st (some v) archive netOk fs := by
  constructor
  · rw [getConfiguredChia, h]
  · intro x v
    rfl

/-- C10 witness: a fresh manager on an empty filesystem rejects the no-argument call,
and the explicit-version call ignores the cached release field. -/
theorem getConfiguredChia_needs_init_witness :
    getConfiguredChia ⟨"/bins", "/chia-root", Platform.linux, none⟩ none ["chia"] true
      ⟨[], []⟩ = (⟨[], []⟩, .error .typeError) ∧
    getConfiguredChia ⟨"/bins", "/chia-root", Platform.linux, some ⟨"9.9.9"⟩⟩
        (some "1.0.0") ["chia"] true ⟨[], []⟩ =
      getConfiguredChia ⟨"/bins", "/chia-root", Platform.linux, none⟩
        (some "1.0.0") ["chia"] true ⟨[], []⟩ := by
  have h := getConfiguredChia_needs_init
    ⟨"/bins", "/chia-root", Platform.linux, none⟩ ["chia"] true ⟨[], []⟩ rfl
  exact ⟨h.1, h.2 (some ⟨"9.9.9"⟩) "1.0.0"⟩

/-- What one `_updateLatestRelease` execution leaves behind: the cached release, the
versions emitted as `new-release` events, and whether the execution itself threw (a
rejection escaping the interval callback; the cached state is untouched then). -/
structure PollResult where
  cached : Option Release
  emitted : List String
  threw : Bool
  deriving DecidableEq, Repr

/-- `_updateLatestRelease` (part_000 lines 96-111). The feed fetch outcome arrives as
`fetchRes` (its errors are caught and swallowed, lines 98-102); a null fetched release
or one not strictly newer than the cache is a silent no-op (lines 103-105); reading
`.version` off a null cache, or an invalid version in `semver.lte`, throws outside any
catch (line 103); otherwise the binary is acquired, and only when that succeeds are
the cache updated and the event emitted (lines 106-110) — an acquisition error is
swallowed by the empty catch with the cache unchanged. -/
def updateLatestRelease (cached : Option Release)
    (fetchRes : Except JsErr (Option Release)) (cfg : BMCfg) (archive : List String)
    (netOk : Bool) (fs : FS) : PollResult × FS :=
  match fetchRes with
  | .error _ => (⟨cached, [], false⟩, fs)
  | .ok none => (⟨cached, [], false⟩, fs)
  | .ok (some l) =>
    match cached with
    | none => (⟨cached, [], true⟩, fs)
    | some c =>
      match semverLte l.version c.version with
      | .error _ => (⟨cached, [], true⟩, fs)
      | .ok true => (⟨cached, [], false⟩, fs)
      | .ok false =>
        match ensureVersionExists cfg l.version archive netOk fs with
        | (fs2, .error _) => (⟨some c, [], false⟩, fs2)
        | (fs2, .ok _) => (⟨some l, [l.version], false⟩, fs2)

/-- C4: a poll emits the new-release notification only when the fetch succeeded with
a release strictly newer than the cache and the binary acquisition succeeded, and then
the cache holds exactly that release; whenever nothing is emitted the cache is left
unchanged; and the cached version never decreases across an execution. -/
theorem updateLatest_spec (cached : Option Release)
    (fetchRes : Except JsErr (Option Release)) (cfg : BMCfg) (archive : List String)
    (netOk : Bool) (fs : FS) :
    ((updateLatestRelease cached fetchRes cfg archive netOk fs).1.emitted ≠ [] →
      ∃ l c n, fetchRes = .ok (some l) ∧ cached = some c ∧
        semverLte l.version c.version = .ok false ∧
        (ensureVersionExists cfg l.version archive netOk fs).2 = .ok n ∧
        (updateLatestRelease cached fetchRes cfg archive netOk fs).1.cached = some l ∧
        (updateLatestRelease cached fetchRes cfg archive netOk fs).1.emitted =
          [l.version]) ∧
    ((updateLatestRelease cached fetchRes cfg archive netOk fs).1.emitted = [] →
      (updateLatestRelease cached fetchRes cfg archive netOk fs).1.cached = cached) ∧
    (∀ c tc c' tc', cached = some c → semverParse c.version = some tc →
      (updateLatestRelease cached fetchRes cfg archive netOk fs).1.cached = some c' →
      semverParse c'.version = some tc' → triLe tc tc' = true) := by
  rcases fetchRes with e | ml
  · refine ⟨fun hne => absurd rfl hne, fun _ => rfl, ?_⟩
    intro c tc c' tc' hc hpc hc' hpc'
    rw [hc] at hc'
    have hcc : c = c' := Option.some_inj.mp hc'
    rw [← hcc] at hpc'
    rw [hpc'] at hpc
    rw [Option.some_inj.mp hpc]
    exact triLe_refl tc
  · rcases ml with _ | l
    · refine ⟨fun hne => absurd rfl hne, fun _ => rfl, ?_⟩
      intro c tc c' tc' hc hpc hc' hpc'
      rw [hc] at hc'
      have hcc : c = c' := Option.some_inj.mp hc'
      rw [← hcc] at hpc'
      rw [hpc'] at hpc
      rw [Option.some_inj.mp hpc]
      exact triLe_refl tc
    · rcases cached with _ | c
      · refine ⟨?_, fun _ => rfl, ?_⟩
        · intro hne
          exact absurd rfl hne
        · intro c tc c' tc' hc
          cases hc
      · rcases hlte : semverLte l.version c.version with e2 | b
        · rw [updateLatestRelease, hlte]
          refine ⟨fun hne => absurd rfl hne, fun _ => rfl, ?_⟩
          intro c0 tc c' tc' hc hpc hc' hpc'
          rw [hc] at hc'
          have hcc : c0 = c' := Option.some_inj.mp hc'
          rw [← hcc] at hpc'
          rw [hpc'] at hpc
          rw [Option.some_inj.mp hpc]
          exact triLe_refl tc
        · cases b with
          | true =>
            rw [updateLatestRelease, hlte]
            refine ⟨fun hne => absurd rfl hne, fun _ => rfl, ?_⟩
            intro c0 tc c' tc' hc hpc hc' hpc'
            rw [hc] at hc'
            have hcc : c0 = c' := Option.some_inj.mp hc'
            rw [← hcc] at hpc'
            rw [hpc'] at hpc
            rw [Option.some_inj.mp hpc]
            exact triLe_refl tc
          | false =>
            have hlt : ∃ tl tc0, semverParse l.version = some tl ∧
                semverParse c.version = some tc0 ∧ triLe tl tc0 = false := by
              rw [semverLte] at hlte
              rcases hx : semverParse l.version with _ | tl
              · rw [hx] at hlte
                simp at hlte
              · rcases hy : semverParse c.version with _ | tc0
                · rw [hx, hy] at hlte
                  simp at hlte
                · rw [hx, hy] at hlte
                  simp only [Except.ok.injEq] at hlte
                  exact ⟨tl, tc0, rfl, rfl, hlte⟩
            rcases hens : ensureVersionExists cfg l.version archive netOk fs
              with ⟨fs2, er⟩
            cases er with
            | error e3 =>
              rw [updateLatestRelease, hlte]
              rw [hens]
              refine ⟨fun hne => absurd rfl hne, fun _ => rfl, ?_⟩
              intro c0 tc c' tc' hc hpc hc' hpc'
              rw [hc] at hc'
              have hcc : c0 = c' := Option.some_inj.mp hc'
              rw [← hcc] at hpc'
              rw [hpc'] at hpc
              rw [Option.some_inj.mp hpc]
              exact triLe_refl tc
            | ok n =>
              rw [updateLatestRelease, hlte]
              rw [hens]
              refine ⟨?_, ?_, ?_⟩
              · intro _
                refine ⟨l, c, n, rfl, rfl, hlte, ?_, rfl, rfl⟩
                rw [hens]
              · intro hemp
                cases hemp
              · intro c0 tc c' tc' hc hpc hc' hpc'
                obtain ⟨tl, tc1, hptl, hptc, hflt⟩ := hlt
                have hcc0 : c = c0 := Option.some_inj.mp hc
                have hlc' : l = c' := Option.some_inj.mp hc'
                have htc : tc = tc1 := by
                  rw [← hcc0] at hpc
                  rw [hpc] at hptc
                  exact Option.some_inj.mp hptc
                have htl : tc' = tl := by
                  rw [← hlc'] at hpc'
                  rw [hpc'] at hptl
                  exact Option.some_inj.mp hptl
                rw [htc, htl]
                exact triLe_total hflt

/-- C4 witness: with 1.2.3 cached and 1.2.4 fetched on a working network, the poll
emits for 1.2.4, caches it, and the monotonicity instance yields
1.2.3 ≤ 1.2.4. -/
theorem updateLatest_spec_witness :
    triLe (1, 2, 3) (1, 2, 4) = true := by
  have h := updateLatest_spec (some ⟨"1.2.3"⟩) (.ok (some ⟨"1.2.4"⟩))
    ⟨"/bins", Platform.linux⟩ ["chia"] true ⟨[], []⟩
  exact h.2.2 ⟨"1.2.3"⟩ (1, 2, 3) ⟨"1.2.4"⟩ (1, 2, 4) rfl (by decide) (by decide)
    (by decide)

end ChiaBinaryManager
